import Mathlib

/-!
# Verification of `mat64/la/cholesky.go`

This file embeds the three routines of the repository's numeric core —
`CholeskyL`, `CholeskyR` and `CholeskySolve` — and proves the spec's claims
about them.

## Scalar model

The Go code computes with IEEE-754 `float64`.  A scalar here (`F`) is either a
finite rational, a signed infinity, or NaN.  The operations `+`, `-`, `*`, `/`,
`math.Max`, `==` and `>` follow the IEEE-754 special-value rules exactly
(`0/0 = NaN`, `x/0 = ±∞` for `x ≠ 0`, NaN propagates through arithmetic,
`NaN == NaN` is `false`, comparisons with NaN are `false`, `math.Max` returns
NaN when either argument is NaN), while arithmetic on finite values is exact
rational arithmetic.  The model has no negative zero; none of the computations
considered here produces one.

`math.Sqrt` is the single operation whose finite results need not be
representable exactly, so the embedded factorizers take the square-root
routine as an explicit parameter `sq`.  `sqrtF` below is an executable
instance that agrees with IEEE `sqrt` on NaN, on the infinities, on zero and
on every rational whose square root is rational; every concrete evaluation in
this file applies the square root only at such points, so the concrete runs
coincide step by step with the `float64` runs.

## Matrix model

`mat64.Dense` is modelled by `Mat`: a pair of dimensions together with a total
entry function (`At`).  `Set` and `SetRow` are the `mat64` mutators.  Indices
outside the stored dimensions are never accessed by the embedded code on the
inputs considered (out-of-range access panics in `mat64` and is declared a
fatal programmer error by the spec).

Go `for` loops become the combinators `iterUp` / `iterDown` / `iterUpFrom`;
the loop body acts on an explicit state.
-/

inductive F where
  | fin (q : ℚ)
  | inf (sign : Bool)
  | nan
deriving DecidableEq

/-- `inf false` is `+∞`, `inf true` is `-∞`. -/
def F.isNaN : F → Bool
  | .nan => true
  | _ => false

def F.neg : F → F
  | .fin q => .fin (-q)
  | .inf s => .inf (!s)
  | .nan => .nan

/-- IEEE addition (exact on finite values). -/
def F.add : F → F → F
  | .nan, _ => .nan
  | _, .nan => .nan
  | .fin a, .fin b => .fin (a + b)
  | .fin _, .inf s => .inf s
  | .inf s, .fin _ => .inf s
  | .inf s, .inf t => if s = t then .inf s else .nan

/-- IEEE subtraction. -/
def F.sub (x y : F) : F := F.add x (F.neg y)

/-- IEEE multiplication (exact on finite values). -/
def F.mul : F → F → F
  | .nan, _ => .nan
  | _, .nan => .nan
  | .fin a, .fin b => .fin (a * b)
  | .fin a, .inf s => if a = 0 then .nan else .inf (Bool.xor (decide (a < 0)) s)
  | .inf s, .fin b => if b = 0 then .nan else .inf (Bool.xor s (decide (b < 0)))
  | .inf s, .inf t => .inf (Bool.xor s t)

/-- IEEE division (exact on finite values): `0/0 = NaN`, `x/0 = ±∞` for
finite `x ≠ 0` (the model's zero is `+0`). -/
def F.div : F → F → F
  | .nan, _ => .nan
  | _, .nan => .nan
  | .fin a, .fin b =>
      if b = 0 then (if a = 0 then .nan else .inf (decide (a < 0))) else .fin (a / b)
  | .fin _, .inf _ => .fin 0
  | .inf s, .fin b => .inf (Bool.xor s (decide (b < 0)))
  | .inf _, .inf _ => .nan

/-- Go's `math.Max`: NaN if either argument is NaN. -/
def F.max : F → F → F
  | .nan, _ => .nan
  | _, .nan => .nan
  | .inf false, _ => .inf false
  | _, .inf false => .inf false
  | .inf true, y => y
  | x, .inf true => x
  | .fin a, .fin b => .fin (Max.max a b)

/-- Go's `<` on `float64`: `false` whenever either operand is NaN. -/
def F.blt : F → F → Bool
  | .nan, _ => false
  | _, .nan => false
  | .fin a, .fin b => decide (a < b)
  | .fin _, .inf s => !s
  | .inf s, .fin _ => s
  | .inf s, .inf t => s && !t

/-- Go's `==` on `float64`: `false` whenever either operand is NaN. -/
def F.beq : F → F → Bool
  | .nan, _ => false
  | _, .nan => false
  | .fin a, .fin b => decide (a = b)
  | .inf s, .inf t => s == t
  | _, _ => false

/-- Strictly positive (`> 0` in `float64`, so `+∞` counts, NaN does not). -/
def F.isPos : F → Bool
  | .fin q => decide (0 < q)
  | .inf s => !s
  | .nan => false

/-- Strictly negative (`< 0` in `float64`). -/
def F.isNeg : F → Bool
  | .fin q => decide (q < 0)
  | .inf s => s
  | .nan => false

/-- Rational square root used to instantiate the `sq` parameter: exact on
rationals that have a rational square root (in particular on `0` and on
perfect squares), and some positive rational elsewhere.  Only the exact
points are ever evaluated in this file. -/
def ratSqrt (q : ℚ) : ℚ := (Nat.sqrt q.num.toNat : ℚ) / (Nat.sqrt q.den : ℚ)

/-- Executable model of `math.Sqrt`: NaN on NaN and on negative arguments,
`+∞` on `+∞`, `ratSqrt` on non-negative finite values. -/
def sqrtF : F → F
  | .fin q => if q < 0 then .nan else .fin (ratSqrt q)
  | .inf false => .inf false
  | .inf true => .nan
  | .nan => .nan

/-- Model of `mat64.Dense`: stored dimensions and a total entry function. -/
structure Mat where
  rows : Nat
  cols : Nat
  At : Nat → Nat → F

/-- `mat64.(*Dense).Set`. -/
def Mat.Set (m : Mat) (i j : Nat) (v : F) : Mat :=
  { m with At := fun a b => if a = i ∧ b = j then v else m.At a b }

/-- `mat64.(*Dense).SetRow`: overwrite the `cols` entries of row `i`. -/
def Mat.SetRow (m : Mat) (i : Nat) (row : Nat → F) : Mat :=
  { m with At := fun a b => if a = i ∧ b < m.cols then row b else m.At a b }

/-- Update one entry of a row slice (`lRowj[k] = s`). -/
def updF (r : Nat → F) (k : Nat) (v : F) : Nat → F :=
  fun i => if i = k then v else r i

/-- `iterUp f k s` runs `f` at indices `0, 1, …, k-1` in ascending order:
a Go `for i := 0; i < k; i++` loop over the state `s`. -/
def iterUp (f : Nat → α → α) : Nat → α → α
  | 0, s => s
  | k + 1, s => f k (iterUp f k s)

/-- `iterUpFrom f lo cnt s` runs `f` at `lo, lo+1, …, lo+cnt-1`:
a Go `for i := lo; i < lo+cnt; i++` loop. -/
def iterUpFrom (f : Nat → α → α) (lo cnt : Nat) (s : α) : α :=
  iterUp (fun i => f (lo + i)) cnt s

/-- `iterDown f k s` runs `f` at `k-1, k-2, …, 0`:
a Go `for i := k-1; i >= 0; i--` loop. -/
def iterDown (f : Nat → α → α) : Nat → α → α
  | 0, s => s
  | k + 1, s => iterDown f k (f k s)

/-- Dot product of two partial rows, accumulated in ascending order from `0`:
`var s float64; for i := 0; i < k; i++ { s += v[i] * w[i] }`. -/
def dotTo (v w : Nat → F) (k : Nat) : F :=
  iterUp (fun i s => F.add s (F.mul (v i) (w i))) k (F.fin 0)

/-- Body of `CholeskyL`'s inner `k` loop.  The state is
`(lRowj, d, spd)`; `l` is the factor built so far (not written during the
inner loop), `a` the input.  Mirrors `cholesky.go` lines 28–38. -/
def cholLInner (a l : Mat) (j k : Nat)
    (st : (Nat → F) × F × Bool) : (Nat → F) × F × Bool :=
  let lRowj := st.1
  let d := st.2.1
  let spd := st.2.2
  let s0 := dotTo (fun i => l.At k i) lRowj k
  let s := F.div (F.sub (a.At j k) s0) (l.At k k)
  (updF lRowj k s, F.add d (F.mul s s), spd && F.beq (a.At k j) (a.At j k))

/-- Body of `CholeskyL`'s outer `j` loop, state `(l, spd)`.
Mirrors `cholesky.go` lines 26–46: copy row `j`, run the inner loop, write
the row back, finish the pivot, update `spd`, set the diagonal to
`Sqrt(Max(d, 0))`, zero the entries right of the diagonal. -/
def cholLOuter (sq : F → F) (a : Mat) (n j : Nat) (st : Mat × Bool) : Mat × Bool :=
  let l := st.1
  let inner := iterUp (cholLInner a l j) j ((fun i => l.At j i), F.fin 0, st.2)
  let lRowj := inner.1
  let d0 := inner.2.1
  let spd1 := inner.2.2
  let l1 := l.SetRow j lRowj
  let d := F.sub (a.At j j) d0
  let spd2 := spd1 && F.blt (F.fin 0) d
  let l2 := l1.Set j j (sq (F.max d (F.fin 0)))
  let l3 := iterUpFrom (fun k l' => l'.Set j k (F.fin 0)) (j + 1) (n - (j + 1)) l2
  (l3, spd2)

/-- `CholeskyL` (`cholesky.go` lines 16–49), with the square-root routine as
the parameter `sq`.  Returns the factor and the `spd` flag. -/
def CholeskyL (sq : F → F) (a : Mat) : Mat × Bool :=
  let m := a.rows
  let n := a.cols
  let spd := m == n
  let l : Mat := ⟨n, n, fun _ _ => F.fin 0⟩
  iterUp (cholLOuter sq a n) n (l, spd)

/-- Body of `CholeskyR`'s inner `k` loop, state `(r, d, spd)`.
Mirrors `cholesky.go` lines 63–72: `s := a.At(k, j)`, subtract the partial
column dot product term by term, divide by `r.At(k, k)`, store at `(k, j)`. -/
def cholRInner (a : Mat) (j k : Nat)
    (st : Mat × F × Bool) : Mat × F × Bool :=
  let r := st.1
  let d := st.2.1
  let spd := st.2.2
  let s1 := iterUp (fun i s => F.sub s (F.mul (r.At i k) (r.At i j))) k (a.At k j)
  let s := F.div s1 (r.At k k)
  (r.Set k j s, F.add d (F.mul s s), spd && F.beq (a.At k j) (a.At j k))

/-- Body of `CholeskyR`'s outer `j` loop, state `(r, spd)`.
Mirrors `cholesky.go` lines 61–79. -/
def cholROuter (sq : F → F) (a : Mat) (n j : Nat) (st : Mat × Bool) : Mat × Bool :=
  let inner := iterUp (cholRInner a j) j (st.1, F.fin 0, st.2)
  let r1 := inner.1
  let d0 := inner.2.1
  let spd1 := inner.2.2
  let d := F.sub (a.At j j) d0
  let spd2 := spd1 && F.blt (F.fin 0) d
  let r2 := r1.Set j j (sq (F.max d (F.fin 0)))
  let r3 := iterUpFrom (fun k r' => r'.Set k j (F.fin 0)) (j + 1) (n - (j + 1)) r2
  (r3, spd2)

/-- `CholeskyR` (`cholesky.go` lines 54–82). -/
def CholeskyR (sq : F → F) (a : Mat) : Mat × Bool :=
  let m := a.rows
  let n := a.cols
  let spd := m == n
  let r : Mat := ⟨n, n, fun _ _ => F.fin 0⟩
  iterUp (cholROuter sq a n) n (r, spd)

/-- The two `mat64` panic values used by `CholeskySolve`:
`mat64.ErrSquare` (the factor is not square) and `mat64.ErrShape` (the
right-hand-side dimension check).  In the spec's vocabulary `ErrSquare` is
the "shape error" (non-square factor) and `ErrShape` the
"dimension-mismatch error". -/
inductive MatErr where
  | ErrSquare
  | ErrShape
deriving DecidableEq

/-- `CholeskySolve` (`cholesky.go` lines 87–121).  Note the second check is
`n != bn` where `_, bn := b.Dims()` discards the row count and takes the
column count of `b`.  The panics become `Except.error`. -/
def CholeskySolve (l b : Mat) : Except MatErr Mat :=
  let m := l.rows
  let n := l.cols
  if n ≠ m then .error .ErrSquare
  else
    let bn := b.cols
    if n ≠ bn then .error .ErrShape
    else
      let nx := bn
      let x1 := iterUp (fun k x =>
        iterUp (fun j x =>
          let x' := iterUp (fun i x =>
            x.Set k j (F.sub (x.At k j) (F.mul (x.At i j) (l.At k i)))) k x
          x'.Set k j (F.div (x'.At k j) (l.At k k))) nx x) n b
      let x2 := iterDown (fun k x =>
        iterUp (fun j x =>
          let x' := iterUpFrom (fun i x =>
            x.Set k j (F.sub (x.At k j) (F.mul (x.At i j) (l.At i k)))) (k + 1) (n - (k + 1)) x
          x'.Set k j (F.div (x'.At k j) (l.At k k))) nx x) n x1
      .ok x2

/-- Matrix literal from a list of rows (entries finite rationals). -/
def matOf (rs : List (List ℚ)) : Mat :=
  ⟨rs.length, (rs.headD []).length, fun i j => F.fin ((rs.getD i []).getD j 0)⟩

/-- The `n × n` zero matrix. -/
def zeroMat (n : Nat) : Mat :=
  ⟨n, n, fun _ _ => F.fin 0⟩

/-! ## Basic lemmas on the matrix model and the loop combinators -/

@[simp] lemma Mat.rows_Set (m : Mat) (i j : Nat) (v : F) : (m.Set i j v).rows = m.rows := rfl

@[simp] lemma Mat.cols_Set (m : Mat) (i j : Nat) (v : F) : (m.Set i j v).cols = m.cols := rfl

@[simp] lemma Mat.rows_SetRow (m : Mat) (i : Nat) (r : Nat → F) : (m.SetRow i r).rows = m.rows := rfl

@[simp] lemma Mat.cols_SetRow (m : Mat) (i : Nat) (r : Nat → F) : (m.SetRow i r).cols = m.cols := rfl

lemma Mat.At_Set (m : Mat) (i j : Nat) (v : F) (a b : Nat) :
    (m.Set i j v).At a b = if a = i ∧ b = j then v else m.At a b := rfl

lemma Mat.At_SetRow (m : Mat) (i : Nat) (r : Nat → F) (a b : Nat) :
    (m.SetRow i r).At a b = if a = i ∧ b < m.cols then r b else m.At a b := rfl

@[simp] lemma iterUp_zero (f : Nat → α → α) (s : α) : iterUp f 0 s = s := rfl

lemma iterUp_succ (f : Nat → α → α) (k : Nat) (s : α) :
    iterUp f (k + 1) s = f k (iterUp f k s) := rfl

lemma iterUpFrom_succ (f : Nat → α → α) (lo cnt : Nat) (s : α) :
    iterUpFrom f lo (cnt + 1) s = f (lo + cnt) (iterUpFrom f lo cnt s) := rfl

/-- Preservation of an invariant along an ascending loop. -/
lemma iterUp_invariant {α : Type _} (P : α → Prop) (f : Nat → α → α)
    (h : ∀ k s, P s → P (f k s)) (n : Nat) (s : α) (h0 : P s) : P (iterUp f n s) := by
  induction n with
  | zero => exact h0
  | succ k ih => exact h k _ ih

/-- Preservation of an index-dependent invariant along an ascending loop. -/
lemma iterUp_invariant_ind {α : Type _} (P : Nat → α → Prop) (f : Nat → α → α)
    (h : ∀ k s, P k s → P (k + 1) (f k s)) (n : Nat) (s : α) (h0 : P 0 s) :
    P n (iterUp f n s) := by
  induction n with
  | zero => exact h0
  | succ k ih => exact h k _ ih

lemma rows_iterUpMat {f : Nat → Mat → Mat} (h : ∀ k m, (f k m).rows = m.rows)
    (n : Nat) (m : Mat) : (iterUp f n m).rows = m.rows := by
  induction n with
  | zero => rfl
  | succ k ih => rw [iterUp_succ, h, ih]

lemma cols_iterUpMat {f : Nat → Mat → Mat} (h : ∀ k m, (f k m).cols = m.cols)
    (n : Nat) (m : Mat) : (iterUp f n m).cols = m.cols := by
  induction n with
  | zero => rfl
  | succ k ih => rw [iterUp_succ, h, ih]

/-! ## Dimensions of the returned factors -/

lemma cholLOuter_fst_rows (sq : F → F) (a : Mat) (n j : Nat) (st : Mat × Bool) :
    (cholLOuter sq a n j st).1.rows = st.1.rows := by
  simp only [cholLOuter, iterUpFrom]
  refine (rows_iterUpMat ?_ _ _).trans rfl
  intro k m
  rfl

lemma cholLOuter_fst_cols (sq : F → F) (a : Mat) (n j : Nat) (st : Mat × Bool) :
    (cholLOuter sq a n j st).1.cols = st.1.cols := by
  simp only [cholLOuter, iterUpFrom]
  refine (cols_iterUpMat ?_ _ _).trans rfl
  intro k m
  rfl

lemma rows_cholRInnerIter (a : Mat) (j k : Nat) (st : Mat × F × Bool) :
    (iterUp (cholRInner a j) k st).1.rows = st.1.rows := by
  induction k with
  | zero => rfl
  | succ k ih => rw [iterUp_succ]; exact (rfl : ((cholRInner a j k _).1).rows = _).trans ih

lemma cols_cholRInnerIter (a : Mat) (j k : Nat) (st : Mat × F × Bool) :
    (iterUp (cholRInner a j) k st).1.cols = st.1.cols := by
  induction k with
  | zero => rfl
  | succ k ih => rw [iterUp_succ]; exact (rfl : ((cholRInner a j k _).1).cols = _).trans ih

lemma cholROuter_fst_rows (sq : F → F) (a : Mat) (n j : Nat) (st : Mat × Bool) :
    (cholROuter sq a n j st).1.rows = st.1.rows := by
  simp only [cholROuter, iterUpFrom]
  refine (rows_iterUpMat ?_ _ _).trans (rows_cholRInnerIter a j j _)
  intro k m
  rfl

lemma cholROuter_fst_cols (sq : F → F) (a : Mat) (n j : Nat) (st : Mat × Bool) :
    (cholROuter sq a n j st).1.cols = st.1.cols := by
  simp only [cholROuter, iterUpFrom]
  refine (cols_iterUpMat ?_ _ _).trans (cols_cholRInnerIter a j j _)
  intro k m
  rfl

@[simp] lemma CholeskyL_fst_rows (sq : F → F) (a : Mat) : (CholeskyL sq a).1.rows = a.cols := by
  simp only [CholeskyL]
  exact iterUp_invariant (fun st => st.1.rows = a.cols) _
    (fun k st h => (cholLOuter_fst_rows sq a a.cols k st).trans h) a.cols
    (⟨a.cols, a.cols, fun _ _ => F.fin 0⟩, a.rows == a.cols) rfl

@[simp] lemma CholeskyL_fst_cols (sq : F → F) (a : Mat) : (CholeskyL sq a).1.cols = a.cols := by
  simp only [CholeskyL]
  exact iterUp_invariant (fun st => st.1.cols = a.cols) _
    (fun k st h => (cholLOuter_fst_cols sq a a.cols k st).trans h) a.cols
    (⟨a.cols, a.cols, fun _ _ => F.fin 0⟩, a.rows == a.cols) rfl

@[simp] lemma CholeskyR_fst_rows (sq : F → F) (a : Mat) : (CholeskyR sq a).1.rows = a.cols := by
  simp only [CholeskyR]
  exact iterUp_invariant (fun st => st.1.rows = a.cols) _
    (fun k st h => (cholROuter_fst_rows sq a a.cols k st).trans h) a.cols
    (⟨a.cols, a.cols, fun _ _ => F.fin 0⟩, a.rows == a.cols) rfl

@[simp] lemma CholeskyR_fst_cols (sq : F → F) (a : Mat) : (CholeskyR sq a).1.cols = a.cols := by
  simp only [CholeskyR]
  exact iterUp_invariant (fun st => st.1.cols = a.cols) _
    (fun k st h => (cholROuter_fst_cols sq a a.cols k st).trans h) a.cols
    (⟨a.cols, a.cols, fun _ _ => F.fin 0⟩, a.rows == a.cols) rfl

/-! ## C8: a non-square factor always fails with `ErrSquare` -/

/-- C8: for every factor matrix `L` whose stored row count differs from its
column count, `CholeskySolve` fails with the error reserved for non-square
factors (`mat64.ErrSquare`, the spec's "shape error"), for any right-hand
side `B`: the check runs before `B` is even inspected. -/
theorem c8_nonsquare_always_ErrSquare (l b : Mat) (h : l.rows ≠ l.cols) :
    CholeskySolve l b = .error .ErrSquare := by
  simp only [CholeskySolve]
  rw [if_pos (fun hnm => h hnm.symm)]

/-- Witness for C8 at the spec's own example: a 2×3 stored shape. -/
theorem c8_witness :
    (matOf [[1, 2, 3], [4, 5, 6]]).rows ≠ (matOf [[1, 2, 3], [4, 5, 6]]).cols
      ∧ CholeskySolve (matOf [[1, 2, 3], [4, 5, 6]]) (matOf [[1], [2]]) = .error .ErrSquare :=
  ⟨by decide, c8_nonsquare_always_ErrSquare (matOf [[1, 2, 3], [4, 5, 6]]) (matOf [[1], [2]]) (by decide)⟩

/-! ## C1: the dimension-mismatch check reads the wrong dimension of `B` -/

/-- C1 (code bug): `CholeskySolve`'s second check is `n != bn` where
`_, bn := b.Dims()` takes `b`'s *column* count, although the function's own
doc comment ("The matrix b must have the same number of rows as a") and the
spec require the *row* count.  Concretely: with `L = [[1]]` (order 1) and
`B = [[1, 2]]` (1 row — equal to the order — and 2 columns) the call fails
with the dimension-mismatch error `ErrShape`; and with `L = I₂` and a 3×2 `B`
(row count 3 ≠ order 2) the call succeeds, silently using only the first two
rows of `B`. -/
theorem c1_dim_check_reads_columns :
    (CholeskySolve (matOf [[1]]) (matOf [[1, 2]]) = .error .ErrShape
      ∧ (matOf [[1, 2]]).rows = (matOf [[1]]).cols)
    ∧ ((CholeskySolve (matOf [[1, 0], [0, 1]]) (matOf [[1, 2], [3, 4], [5, 6]])).isOk = true
      ∧ (matOf [[1, 2], [3, 4], [5, 6]]).rows ≠ (matOf [[1, 0], [0, 1]]).cols) := by
  refine ⟨⟨?_, by decide⟩, ?_, by decide⟩
  · simp [CholeskySolve, matOf]
  · simp [CholeskySolve, matOf, Except.isOk, Except.toBool]

/-! ## C2: the end-to-end solve example -/

/-- C2 counterexample: on the spec's end-to-end example the solve call does
not succeed at all: `B = [[1], [2]]` has 1 column, the factor has order 2,
and the (column-count) dimension check fails with `ErrShape`. -/
theorem c2_counterexample :
    CholeskySolve (CholeskyL sqrtF (matOf [[4, 2], [2, 3]])).1 (matOf [[1], [2]])
      = .error .ErrShape := by
  simp only [CholeskySolve, CholeskyL_fst_rows, CholeskyL_fst_cols]
  norm_num [matOf]

/-- C2 (amended): factorizing `A = [[4, 2], [2, 3]]` succeeds with
`spd = true`, but `CholeskySolve` on the resulting 2×2 factor and the 2×1
right-hand side fails with `ErrShape`, because the dimension check compares
`B`'s column count (1) with the order (2); no solution is produced.  (The
solution of `A·X = B` is `[[-1/8], [3/4]]`, not the claimed
`[[1/16], [5/8]]`, so the claimed value could not have been yielded even by
a row-count check.) -/
theorem c2_amended :
    (CholeskyL sqrtF (matOf [[4, 2], [2, 3]])).2 = true
    ∧ CholeskySolve (CholeskyL sqrtF (matOf [[4, 2], [2, 3]])).1 (matOf [[1], [2]])
        = .error .ErrShape := by
  constructor
  · simp [CholeskyL, cholLOuter, cholLInner, iterUp, iterUpFrom, dotTo, matOf,
      Mat.Set, Mat.SetRow, updF, F.add, F.sub, F.mul, F.div, F.neg, F.max, F.blt,
      F.beq, sqrtF, ratSqrt]
    norm_num [ratSqrt]
  · simp only [CholeskySolve, CholeskyL_fst_rows, CholeskyL_fst_cols]
    norm_num [matOf]

/-! ## Projection lemmas for the loop bodies -/

lemma cholLInner_fst (a l : Mat) (j k : Nat) (st : (Nat → F) × F × Bool) :
    (cholLInner a l j k st).1 =
      updF st.1 k (F.div (F.sub (a.At j k) (dotTo (fun i => l.At k i) st.1 k)) (l.At k k)) := rfl

lemma cholLInner_snd2 (a l : Mat) (j k : Nat) (st : (Nat → F) × F × Bool) :
    (cholLInner a l j k st).2.2 = (st.2.2 && F.beq (a.At k j) (a.At j k)) := rfl

lemma cholRInner_fst (a : Mat) (j k : Nat) (st : Mat × F × Bool) :
    (cholRInner a j k st).1 =
      st.1.Set k j (F.div (iterUp (fun i s => F.sub s (F.mul (st.1.At i k) (st.1.At i j))) k (a.At k j))
        (st.1.At k k)) := rfl

lemma cholRInner_snd2 (a : Mat) (j k : Nat) (st : Mat × F × Bool) :
    (cholRInner a j k st).2.2 = (st.2.2 && F.beq (a.At k j) (a.At j k)) := rfl

lemma cholLOuter_fst (sq : F → F) (a : Mat) (n j : Nat) (st : Mat × Bool) :
    (cholLOuter sq a n j st).1 =
      iterUpFrom (fun k l' => l'.Set j k (F.fin 0)) (j + 1) (n - (j + 1))
        ((st.1.SetRow j (iterUp (cholLInner a st.1 j) j ((fun i => st.1.At j i), F.fin 0, st.2)).1).Set j j
          (sq (F.max (F.sub (a.At j j)
            (iterUp (cholLInner a st.1 j) j ((fun i => st.1.At j i), F.fin 0, st.2)).2.1) (F.fin 0)))) := rfl

lemma cholLOuter_snd (sq : F → F) (a : Mat) (n j : Nat) (st : Mat × Bool) :
    (cholLOuter sq a n j st).2 =
      ((iterUp (cholLInner a st.1 j) j ((fun i => st.1.At j i), F.fin 0, st.2)).2.2
        && F.blt (F.fin 0) (F.sub (a.At j j)
             (iterUp (cholLInner a st.1 j) j ((fun i => st.1.At j i), F.fin 0, st.2)).2.1)) := rfl

lemma cholROuter_fst (sq : F → F) (a : Mat) (n j : Nat) (st : Mat × Bool) :
    (cholROuter sq a n j st).1 =
      iterUpFrom (fun k r' => r'.Set k j (F.fin 0)) (j + 1) (n - (j + 1))
        ((iterUp (cholRInner a j) j (st.1, F.fin 0, st.2)).1.Set j j
          (sq (F.max (F.sub (a.At j j)
            (iterUp (cholRInner a j) j (st.1, F.fin 0, st.2)).2.1) (F.fin 0)))) := rfl

lemma cholROuter_snd (sq : F → F) (a : Mat) (n j : Nat) (st : Mat × Bool) :
    (cholROuter sq a n j st).2 =
      ((iterUp (cholRInner a j) j (st.1, F.fin 0, st.2)).2.2
        && F.blt (F.fin 0) (F.sub (a.At j j)
             (iterUp (cholRInner a j) j (st.1, F.fin 0, st.2)).2.1)) := rfl

/-! ## Write locality: each outer iteration of `CholeskyL` writes only row `j`,
each outer iteration of `CholeskyR` writes only column `j` -/

lemma At_fillRow (j lo cnt : Nat) (l : Mat) (p q : Nat) :
    (iterUpFrom (fun k l' => l'.Set j k (F.fin 0)) lo cnt l).At p q
      = if p = j ∧ lo ≤ q ∧ q < lo + cnt then F.fin 0 else l.At p q := by
  induction cnt with
  | zero =>
      have h0 : ¬(p = j ∧ lo ≤ q ∧ q < lo + 0) := by omega
      rw [if_neg h0]
      rfl
  | succ c ih =>
      rw [iterUpFrom_succ, Mat.At_Set, ih]
      split_ifs with h1 h2 h2 <;> try rfl
      · omega
      · omega
      · omega

lemma At_fillCol (j lo cnt : Nat) (l : Mat) (p q : Nat) :
    (iterUpFrom (fun k r' => r'.Set k j (F.fin 0)) lo cnt l).At p q
      = if q = j ∧ lo ≤ p ∧ p < lo + cnt then F.fin 0 else l.At p q := by
  induction cnt with
  | zero =>
      have h0 : ¬(q = j ∧ lo ≤ p ∧ p < lo + 0) := by omega
      rw [if_neg h0]
      rfl
  | succ c ih =>
      rw [iterUpFrom_succ, Mat.At_Set, ih]
      split_ifs with h1 h2 h2 <;> try rfl
      · omega
      · omega
      · omega

/-- The inner loop of `CholeskyL` leaves row entries at indices `≥ k` unchanged. -/
lemma cholLInner_iter_row_high (a l : Mat) (j : Nat) (st : (Nat → F) × F × Bool)
    (k i : Nat) (hik : k ≤ i) : (iterUp (cholLInner a l j) k st).1 i = st.1 i := by
  induction k generalizing st with
  | zero => rfl
  | succ k ih =>
      rw [iterUp_succ, cholLInner_fst, updF]
      have hik' : k ≤ i := Nat.le_of_succ_le hik
      have : i ≠ k := by omega
      simp only [this, if_false]
      exact ih st hik'

/-- The inner loop of `CholeskyR` writes only into column `j`. -/
lemma cholRInner_iter_At_colne (a : Mat) (j k : Nat) (st : Mat × F × Bool)
    (p q : Nat) (hq : q ≠ j) : (iterUp (cholRInner a j) k st).1.At p q = st.1.At p q := by
  induction k with
  | zero => rfl
  | succ k ih =>
      rw [iterUp_succ, cholRInner_fst, Mat.At_Set]
      have : ¬(p = k ∧ q = j) := fun h => hq h.2
      rw [if_neg this, ih]

/-- The inner loop of `CholeskyR` writes only rows `< k` of column `j`. -/
lemma cholRInner_iter_At_high (a : Mat) (j k : Nat) (st : Mat × F × Bool)
    (p q : Nat) (hp : k ≤ p) : (iterUp (cholRInner a j) k st).1.At p q = st.1.At p q := by
  induction k generalizing st with
  | zero => rfl
  | succ k ih =>
      rw [iterUp_succ, cholRInner_fst, Mat.At_Set]
      have : ¬(p = k ∧ q = j) := fun h => by omega
      rw [if_neg this]
      exact ih st (Nat.le_of_succ_le hp)

/-- An outer `CholeskyL` iteration at index `j` does not change rows other than `j`. -/
lemma cholLOuter_At_rowne (sq : F → F) (a : Mat) (n j : Nat) (st : Mat × Bool)
    (p q : Nat) (hp : p ≠ j) : (cholLOuter sq a n j st).1.At p q = st.1.At p q := by
  rw [cholLOuter_fst, At_fillRow, Mat.At_Set, Mat.At_SetRow]
  have h1 : ¬(p = j ∧ j + 1 ≤ q ∧ q < j + 1 + (n - (j + 1))) := fun h => hp h.1
  have h2 : ¬(p = j ∧ q = j) := fun h => hp h.1
  have h3 : ¬(p = j ∧ q < st.1.cols) := fun h => hp h.1
  rw [if_neg h1, if_neg h2, if_neg h3]

/-- An outer `CholeskyR` iteration at index `j` does not change columns other than `j`. -/
lemma cholROuter_At_colne (sq : F → F) (a : Mat) (n j : Nat) (st : Mat × Bool)
    (p q : Nat) (hq : q ≠ j) : (cholROuter sq a n j st).1.At p q = st.1.At p q := by
  rw [cholROuter_fst, At_fillCol, Mat.At_Set]
  have h1 : ¬(q = j ∧ j + 1 ≤ p ∧ p < j + 1 + (n - (j + 1))) := fun h => hq h.1
  have h2 : ¬(p = j ∧ q = j) := fun h => hq h.2
  rw [if_neg h1, if_neg h2, cholRInner_iter_At_colne a j j (st.1, F.fin 0, st.2) p q hq]

/-! ## Intermediate states of the factorizers -/

/-- State of `CholeskyL` after `j` outer iterations. -/
def cholLState (sq : F → F) (a : Mat) (j : Nat) : Mat × Bool :=
  iterUp (cholLOuter sq a a.cols) j (⟨a.cols, a.cols, fun _ _ => F.fin 0⟩, a.rows == a.cols)

/-- State of `CholeskyR` after `j` outer iterations. -/
def cholRState (sq : F → F) (a : Mat) (j : Nat) : Mat × Bool :=
  iterUp (cholROuter sq a a.cols) j (⟨a.cols, a.cols, fun _ _ => F.fin 0⟩, a.rows == a.cols)

lemma CholeskyL_eq_state (sq : F → F) (a : Mat) : CholeskyL sq a = cholLState sq a a.cols := rfl

lemma CholeskyR_eq_state (sq : F → F) (a : Mat) : CholeskyR sq a = cholRState sq a a.cols := rfl

lemma cholLState_succ (sq : F → F) (a : Mat) (j : Nat) :
    cholLState sq a (j + 1) = cholLOuter sq a a.cols j (cholLState sq a j) := rfl

lemma cholRState_succ (sq : F → F) (a : Mat) (j : Nat) :
    cholRState sq a (j + 1) = cholROuter sq a a.cols j (cholRState sq a j) := rfl

lemma cholLState_cols (sq : F → F) (a : Mat) (j : Nat) :
    (cholLState sq a j).1.cols = a.cols :=
  iterUp_invariant (fun st => st.1.cols = a.cols) _
    (fun k st h => (cholLOuter_fst_cols sq a a.cols k st).trans h) j
    (⟨a.cols, a.cols, fun _ _ => F.fin 0⟩, a.rows == a.cols) rfl

/-- Rows `≥ j` of the partial `L` are still all-zero, and rows `< j` are zero
strictly right of the diagonal. -/
lemma cholLState_zero (sq : F → F) (a : Mat) (j : Nat) :
    (∀ p q, j ≤ p → (cholLState sq a j).1.At p q = F.fin 0)
    ∧ (∀ p q, p < j → p < q → (cholLState sq a j).1.At p q = F.fin 0) := by
  induction j with
  | zero => exact ⟨fun p q _ => rfl, fun p q h _ => absurd h (Nat.not_lt_zero p)⟩
  | succ j ih =>
      rw [cholLState_succ]
      constructor
      · intro p q hp
        rw [cholLOuter_At_rowne sq a a.cols j _ p q (by omega)]
        exact ih.1 p q (by omega)
      · intro p q hp hq
        rcases Nat.lt_succ_iff_lt_or_eq.mp hp with h | h
        · rw [cholLOuter_At_rowne sq a a.cols j _ p q (by omega)]
          exact ih.2 p q h hq
        · subst h
          rw [cholLOuter_fst, At_fillRow, Mat.At_Set, Mat.At_SetRow, cholLState_cols]
          split_ifs with h1 h2 h3
          · rfl
          · omega
          · omega
          · exact ih.1 p q (by omega)

/-- Columns `≥ j` of the partial `R` are still all-zero, and columns `< j` are
zero strictly below the diagonal. -/
lemma cholRState_zero (sq : F → F) (a : Mat) (j : Nat) :
    (∀ p q, j ≤ q → (cholRState sq a j).1.At p q = F.fin 0)
    ∧ (∀ p q, q < j → q < p → (cholRState sq a j).1.At p q = F.fin 0) := by
  induction j with
  | zero => exact ⟨fun p q _ => rfl, fun p q h _ => absurd h (Nat.not_lt_zero q)⟩
  | succ j ih =>
      rw [cholRState_succ]
      constructor
      · intro p q hq
        rw [cholROuter_At_colne sq a a.cols j _ p q (by omega)]
        exact ih.1 p q (by omega)
      · intro p q hq hp
        rcases Nat.lt_succ_iff_lt_or_eq.mp hq with h | h
        · rw [cholROuter_At_colne sq a a.cols j _ p q (by omega)]
          exact ih.2 p q h hp
        · subst h
          rw [cholROuter_fst, At_fillCol, Mat.At_Set]
          split_ifs with h1 h2
          · rfl
          · omega
          · rw [cholRInner_iter_At_high a q q ((cholRState sq a q).1, F.fin 0, (cholRState sq a q).2) p q (by omega)]
            exact ih.1 p q (by omega)

/-! ## C6: strict triangularity of both factors -/

/-- C6: for every input matrix `A` (symmetric positive-definite or not) and
every square-root routine, the factor of `CholeskyL` is exactly zero strictly
above the diagonal and the factor of `CholeskyR` is exactly zero strictly
below the diagonal. -/
theorem c6_strict_triangularity (sq : F → F) (a : Mat) (p q : Nat) (hpq : p < q) :
    (CholeskyL sq a).1.At p q = F.fin 0 ∧ (CholeskyR sq a).1.At q p = F.fin 0 := by
  constructor
  · rw [CholeskyL_eq_state]
    by_cases hp : p < a.cols
    · exact (cholLState_zero sq a a.cols).2 p q hp hpq
    · exact (cholLState_zero sq a a.cols).1 p q (by omega)
  · rw [CholeskyR_eq_state]
    by_cases hp : p < a.cols
    · exact (cholRState_zero sq a a.cols).2 q p hp hpq
    · exact (cholRState_zero sq a a.cols).1 q p (by omega)

/-- Witness for C6 at a concrete input and index pair. -/
theorem c6_witness :
    (0 : Nat) < 1
    ∧ (CholeskyL sqrtF (matOf [[4, 2], [2, 3]])).1.At 0 1 = F.fin 0
    ∧ (CholeskyR sqrtF (matOf [[4, 2], [2, 3]])).1.At 1 0 = F.fin 0 :=
  ⟨Nat.zero_lt_one,
    (c6_strict_triangularity sqrtF (matOf [[4, 2], [2, 3]]) 0 1 Nat.zero_lt_one).1,
    (c6_strict_triangularity sqrtF (matOf [[4, 2], [2, 3]]) 0 1 Nat.zero_lt_one).2⟩

/-! ## The `spd` flag: decomposition into its three conditions -/

lemma cholLInner_snd1 (a l : Mat) (j k : Nat) (st : (Nat → F) × F × Bool) :
    (cholLInner a l j k st).2.1 =
      F.add st.2.1
        (F.mul (F.div (F.sub (a.At j k) (dotTo (fun i => l.At k i) st.1 k)) (l.At k k))
               (F.div (F.sub (a.At j k) (dotTo (fun i => l.At k i) st.1 k)) (l.At k k))) := rfl

lemma cholRInner_snd1 (a : Mat) (j k : Nat) (st : Mat × F × Bool) :
    (cholRInner a j k st).2.1 =
      F.add st.2.1
        (F.mul (F.div (iterUp (fun i s => F.sub s (F.mul (st.1.At i k) (st.1.At i j))) k (a.At k j)) (st.1.At k k))
               (F.div (iterUp (fun i s => F.sub s (F.mul (st.1.At i k) (st.1.At i j))) k (a.At k j)) (st.1.At k k))) := rfl

/-- The row and pivot accumulator computed by `CholeskyL`'s inner loop do not
depend on the incoming `spd` flag. -/
lemma cholLInner_iter_indep (a l : Mat) (j k : Nat) (r0 : Nat → F) (d0 : F) (b b' : Bool) :
    (iterUp (cholLInner a l j) k (r0, d0, b)).1 = (iterUp (cholLInner a l j) k (r0, d0, b')).1
    ∧ (iterUp (cholLInner a l j) k (r0, d0, b)).2.1
        = (iterUp (cholLInner a l j) k (r0, d0, b')).2.1 := by
  induction k with
  | zero => exact ⟨rfl, rfl⟩
  | succ k ih =>
      rw [iterUp_succ, iterUp_succ]
      constructor
      · rw [cholLInner_fst, cholLInner_fst, ih.1]
      · rw [cholLInner_snd1, cholLInner_snd1, ih.1, ih.2]

/-- The partial factor and pivot accumulator computed by `CholeskyR`'s inner
loop do not depend on the incoming `spd` flag. -/
lemma cholRInner_iter_indep (a : Mat) (j k : Nat) (m0 : Mat) (d0 : F) (b b' : Bool) :
    (iterUp (cholRInner a j) k (m0, d0, b)).1 = (iterUp (cholRInner a j) k (m0, d0, b')).1
    ∧ (iterUp (cholRInner a j) k (m0, d0, b)).2.1
        = (iterUp (cholRInner a j) k (m0, d0, b')).2.1 := by
  induction k with
  | zero => exact ⟨rfl, rfl⟩
  | succ k ih =>
      rw [iterUp_succ, iterUp_succ]
      constructor
      · rw [cholRInner_fst, cholRInner_fst, ih.1]
      · rw [cholRInner_snd1, cholRInner_snd1, ih.1, ih.2]

/-- The symmetry checks performed while processing column/row `j`:
`a.At(k, j) == a.At(j, k)` for `k = 0, …, cnt-1`, conjoined in loop order. -/
def pairsB (a : Mat) (j cnt : Nat) : Bool :=
  iterUp (fun k c => c && F.beq (a.At k j) (a.At j k)) cnt true

lemma pairsB_succ (a : Mat) (j k : Nat) :
    pairsB a j (k + 1) = (pairsB a j k && F.beq (a.At k j) (a.At j k)) := rfl

lemma pairsB_eq_true (a : Mat) (j cnt : Nat) :
    pairsB a j cnt = true ↔ ∀ k, k < cnt → F.beq (a.At k j) (a.At j k) = true := by
  induction cnt with
  | zero => simp [pairsB]
  | succ c ih =>
      rw [pairsB_succ, Bool.and_eq_true, ih]
      constructor
      · rintro ⟨h1, h2⟩ k hk
        rcases Nat.lt_succ_iff_lt_or_eq.mp hk with h | h
        · exact h1 k h
        · exact h ▸ h2
      · intro h
        exact ⟨fun k hk => h k (by omega), h c (by omega)⟩

lemma cholLInner_iter_spd (a l : Mat) (j k : Nat) (st : (Nat → F) × F × Bool) :
    (iterUp (cholLInner a l j) k st).2.2 = (st.2.2 && pairsB a j k) := by
  induction k with
  | zero => simp [pairsB]
  | succ k ih =>
      rw [iterUp_succ, cholLInner_snd2, ih, pairsB_succ, Bool.and_assoc]

lemma cholRInner_iter_spd (a : Mat) (j k : Nat) (st : Mat × F × Bool) :
    (iterUp (cholRInner a j) k st).2.2 = (st.2.2 && pairsB a j k) := by
  induction k with
  | zero => simp [pairsB]
  | succ k ih =>
      rw [iterUp_succ, cholRInner_snd2, ih, pairsB_succ, Bool.and_assoc]

/-- The diagonal pivot `d` computed by `CholeskyL` while processing row `j`
(the value of `d` at line 40 of `cholesky.go`, before the clamp and square
root). -/
def pivotL (sq : F → F) (a : Mat) (j : Nat) : F :=
  F.sub (a.At j j)
    (iterUp (cholLInner a (cholLState sq a j).1 j) j
      ((fun i => (cholLState sq a j).1.At j i), F.fin 0, true)).2.1

/-- The diagonal pivot `d` computed by `CholeskyR` while processing column `j`
(the value of `d` at line 73 of `cholesky.go`). -/
def pivotR (sq : F → F) (a : Mat) (j : Nat) : F :=
  F.sub (a.At j j)
    (iterUp (cholRInner a j) j ((cholRState sq a j).1, F.fin 0, true)).2.1

lemma cholLState_spd_succ (sq : F → F) (a : Mat) (j : Nat) :
    (cholLState sq a (j + 1)).2 =
      ((cholLState sq a j).2 && (pairsB a j j && F.blt (F.fin 0) (pivotL sq a j))) := by
  rw [cholLState_succ, cholLOuter_snd, cholLInner_iter_spd,
    (cholLInner_iter_indep a (cholLState sq a j).1 j j
      (fun i => (cholLState sq a j).1.At j i) (F.fin 0) (cholLState sq a j).2 true).2]
  simp only [pivotL, Bool.and_assoc]

lemma cholRState_spd_succ (sq : F → F) (a : Mat) (j : Nat) :
    (cholRState sq a (j + 1)).2 =
      ((cholRState sq a j).2 && (pairsB a j j && F.blt (F.fin 0) (pivotR sq a j))) := by
  rw [cholRState_succ, cholROuter_snd, cholRInner_iter_spd,
    (cholRInner_iter_indep a j j (cholRState sq a j).1 (F.fin 0) (cholRState sq a j).2 true).2]
  simp only [pivotR, Bool.and_assoc]

lemma cholLState_spd_iff (sq : F → F) (a : Mat) (j : Nat) :
    (cholLState sq a j).2 = true ↔
      (a.rows = a.cols
        ∧ ∀ i, i < j → (pairsB a i i && F.blt (F.fin 0) (pivotL sq a i)) = true) := by
  induction j with
  | zero =>
      simp [cholLState, beq_iff_eq]
  | succ j ih =>
      rw [cholLState_spd_succ, Bool.and_eq_true, ih]
      constructor
      · rintro ⟨⟨hrc, hall⟩, hj⟩
        refine ⟨hrc, fun i hi => ?_⟩
        rcases Nat.lt_succ_iff_lt_or_eq.mp hi with h | h
        · exact hall i h
        · exact h ▸ hj
      · rintro ⟨hrc, hall⟩
        exact ⟨⟨hrc, fun i hi => hall i (by omega)⟩, hall j (by omega)⟩

lemma cholRState_spd_iff (sq : F → F) (a : Mat) (j : Nat) :
    (cholRState sq a j).2 = true ↔
      (a.rows = a.cols
        ∧ ∀ i, i < j → (pairsB a i i && F.blt (F.fin 0) (pivotR sq a i)) = true) := by
  induction j with
  | zero =>
      simp [cholRState, beq_iff_eq]
  | succ j ih =>
      rw [cholRState_spd_succ, Bool.and_eq_true, ih]
      constructor
      · rintro ⟨⟨hrc, hall⟩, hj⟩
        refine ⟨hrc, fun i hi => ?_⟩
        rcases Nat.lt_succ_iff_lt_or_eq.mp hi with h | h
        · exact hall i h
        · exact h ▸ hj
      · rintro ⟨hrc, hall⟩
        exact ⟨⟨hrc, fun i hi => hall i (by omega)⟩, hall j (by omega)⟩

/-- `spd` is exactly "square, all checked pairs equal, all pivots positive". -/
lemma CholeskyL_spd_iff (sq : F → F) (a : Mat) :
    (CholeskyL sq a).2 = true ↔
      (a.rows = a.cols
        ∧ (∀ j, j < a.cols → ∀ k, k < j → F.beq (a.At k j) (a.At j k) = true)
        ∧ (∀ j, j < a.cols → F.blt (F.fin 0) (pivotL sq a j) = true)) := by
  rw [CholeskyL_eq_state, cholLState_spd_iff]
  constructor
  · rintro ⟨hrc, hall⟩
    refine ⟨hrc, fun j hj k hk => ?_, fun j hj => ?_⟩
    · have h := hall j hj
      rw [Bool.and_eq_true] at h
      exact (pairsB_eq_true a j j).mp h.1 k hk
    · have h := hall j hj
      rw [Bool.and_eq_true] at h
      exact h.2
  · rintro ⟨hrc, hsym, hpiv⟩
    refine ⟨hrc, fun i hi => ?_⟩
    rw [Bool.and_eq_true]
    exact ⟨(pairsB_eq_true a i i).mpr (fun k hk => hsym i hi k hk), hpiv i hi⟩

lemma CholeskyR_spd_iff (sq : F → F) (a : Mat) :
    (CholeskyR sq a).2 = true ↔
      (a.rows = a.cols
        ∧ (∀ j, j < a.cols → ∀ k, k < j → F.beq (a.At k j) (a.At j k) = true)
        ∧ (∀ j, j < a.cols → F.blt (F.fin 0) (pivotR sq a j) = true)) := by
  rw [CholeskyR_eq_state, cholRState_spd_iff]
  constructor
  · rintro ⟨hrc, hall⟩
    refine ⟨hrc, fun j hj k hk => ?_, fun j hj => ?_⟩
    · have h := hall j hj
      rw [Bool.and_eq_true] at h
      exact (pairsB_eq_true a j j).mp h.1 k hk
    · have h := hall j hj
      rw [Bool.and_eq_true] at h
      exact h.2
  · rintro ⟨hrc, hsym, hpiv⟩
    refine ⟨hrc, fun i hi => ?_⟩
    rw [Bool.and_eq_true]
    exact ⟨(pairsB_eq_true a i i).mpr (fun k hk => hsym i hi k hk), hpiv i hi⟩

/-! ## C3: exact characterization of the `spd` verdict -/

/-- C3: for every input matrix `A` and square-root routine, the `spd` flag
returned by `CholeskyL` (and by `CholeskyR`) is `true` iff (a) `A` is square,
(b) every off-diagonal pair examined during elimination satisfies
`A[k,j] == A[j,k]` by exact `float64` equality, and (c) every diagonal pivot
`d` computed before the square root is strictly positive.  In particular the
asymmetric square input `[[4, 2], [3, 3]]`, whose two pivots (4 and 3/4) are
both positive, yields `spd = false` through the symmetry check alone. -/
theorem c3_spd_characterization (sq : F → F) (a : Mat) :
    ((CholeskyL sq a).2 = true ↔
      (a.rows = a.cols
        ∧ (∀ j, j < a.cols → ∀ k, k < j → F.beq (a.At k j) (a.At j k) = true)
        ∧ (∀ j, j < a.cols → F.blt (F.fin 0) (pivotL sq a j) = true)))
    ∧ ((CholeskyR sq a).2 = true ↔
      (a.rows = a.cols
        ∧ (∀ j, j < a.cols → ∀ k, k < j → F.beq (a.At k j) (a.At j k) = true)
        ∧ (∀ j, j < a.cols → F.blt (F.fin 0) (pivotR sq a j) = true)))
    ∧ ((CholeskyL sqrtF (matOf [[4, 2], [3, 3]])).2 = false
        ∧ (matOf [[4, 2], [3, 3]]).rows = (matOf [[4, 2], [3, 3]]).cols
        ∧ F.blt (F.fin 0) (pivotL sqrtF (matOf [[4, 2], [3, 3]]) 0) = true
        ∧ F.blt (F.fin 0) (pivotL sqrtF (matOf [[4, 2], [3, 3]]) 1) = true) := by
  refine ⟨CholeskyL_spd_iff sq a, CholeskyR_spd_iff sq a, ?_, rfl, ?_, ?_⟩
  · simp [CholeskyL, cholLOuter, cholLInner, iterUp, iterUpFrom, dotTo, matOf,
      Mat.Set, Mat.SetRow, updF, F.add, F.sub, F.mul, F.div, F.neg, F.max, F.blt,
      F.beq, sqrtF, ratSqrt]
  · simp [pivotL, cholLState, cholLOuter, cholLInner, iterUp, iterUpFrom, dotTo, matOf,
      Mat.Set, Mat.SetRow, updF, F.add, F.sub, F.mul, F.div, F.neg, F.max, F.blt,
      F.beq, sqrtF, ratSqrt]
  · simp [pivotL, cholLState, cholLOuter, cholLInner, iterUp, iterUpFrom, dotTo, matOf,
      Mat.Set, Mat.SetRow, updF, F.add, F.sub, F.mul, F.div, F.neg, F.max, F.blt,
      F.beq, sqrtF, ratSqrt]
    norm_num [ratSqrt]

/-! ## C4: the zero matrix -/

/-- C4 counterexample: on the 2×2 zero matrix the computed factor is *not*
all-zero: entry `(1,0)` is `(0 − 0) / 0 = NaN` (the diagonal `L[0][0]` was
`Sqrt(Max(0, 0)) = 0`). -/
theorem c4_counterexample :
    (CholeskyL sqrtF (zeroMat 2)).1.At 1 0 = F.nan ∧ F.nan ≠ F.fin 0 := by
  constructor
  · simp [CholeskyL, cholLOuter, cholLInner, iterUp, iterUpFrom, dotTo, zeroMat,
      Mat.Set, Mat.SetRow, updF, F.add, F.sub, F.mul, F.div, F.neg, F.max, F.blt,
      F.beq, sqrtF, ratSqrt]
  · intro h
    exact F.noConfusion h

/-- C4 (amended): on the `n × n` zero matrix `CholeskyL` returns
`spd = false` for every `n ≥ 1` (the first pivot is `0`, not strictly
positive).  The factor is all-zero only for `n = 1`; for `n ≥ 2` the
subdiagonal entries are NaN, because they are computed as
`(0 − 0) / L[0][0] = 0 / 0`. -/
theorem c4_amended_zero_matrix (sq : F → F) :
    (∀ n, 1 ≤ n → (CholeskyL sq (zeroMat n)).2 = false)
    ∧ (CholeskyL sqrtF (zeroMat 1)).1.At 0 0 = F.fin 0
    ∧ (CholeskyL sqrtF (zeroMat 2)).1.At 1 0 = F.nan := by
  refine ⟨?_, ?_, ?_⟩
  · intro n hn
    cases hb : (CholeskyL sq (zeroMat n)).2 with
    | false => rfl
    | true =>
        exfalso
        have h := (CholeskyL_spd_iff sq (zeroMat n)).mp hb
        have hp := h.2.2 0 (by simpa [zeroMat] using hn)
        have hpe : pivotL sq (zeroMat n) 0 = F.fin 0 := by
          simp [pivotL, iterUp, zeroMat, F.sub, F.add, F.neg]
        rw [hpe] at hp
        simp [F.blt] at hp
  · simp [CholeskyL, cholLOuter, cholLInner, iterUp, iterUpFrom, dotTo, zeroMat,
      Mat.Set, Mat.SetRow, updF, F.add, F.sub, F.mul, F.div, F.neg, F.max, F.blt,
      F.beq, sqrtF, ratSqrt]
  · simp [CholeskyL, cholLOuter, cholLInner, iterUp, iterUpFrom, dotTo, zeroMat,
      Mat.Set, Mat.SetRow, updF, F.add, F.sub, F.mul, F.div, F.neg, F.max, F.blt,
      F.beq, sqrtF, ratSqrt]

/-- Witness for C4's amended claim at `n = 3`. -/
theorem c4_witness : 1 ≤ 3 ∧ (CholeskyL sqrtF (zeroMat 3)).2 = false :=
  ⟨by omega, (c4_amended_zero_matrix sqrtF).1 3 (by omega)⟩

/-! ## C7: totality and the diagonal clamp -/

/-- Once row `p` has been processed, later `CholeskyL` iterations never touch it. -/
lemma cholLState_At_stable (sq : F → F) (a : Mat) (p q : Nat) :
    ∀ m, p + 1 ≤ m → (cholLState sq a m).1.At p q = (cholLState sq a (p + 1)).1.At p q := by
  intro m
  induction m with
  | zero => omega
  | succ m ih =>
      intro hm
      by_cases h : p + 1 ≤ m
      · rw [cholLState_succ, cholLOuter_At_rowne sq a a.cols m _ p q (by omega)]
        exact ih h
      · have hpm : p + 1 = m + 1 := by omega
        rw [hpm]

/-- Once column `q` has been processed, later `CholeskyR` iterations never touch it. -/
lemma cholRState_At_stable (sq : F → F) (a : Mat) (p q : Nat) :
    ∀ m, q + 1 ≤ m → (cholRState sq a m).1.At p q = (cholRState sq a (q + 1)).1.At p q := by
  intro m
  induction m with
  | zero => omega
  | succ m ih =>
      intro hm
      by_cases h : q + 1 ≤ m
      · rw [cholRState_succ, cholROuter_At_colne sq a a.cols m _ p q (by omega)]
        exact ih h
      · have hqm : q + 1 = m + 1 := by omega
        rw [hqm]

lemma cholLState_diag (sq : F → F) (a : Mat) (j : Nat) :
    (cholLState sq a (j + 1)).1.At j j = sq (F.max (pivotL sq a j) (F.fin 0)) := by
  rw [cholLState_succ, cholLOuter_fst, At_fillRow, Mat.At_Set]
  have h1 : ¬(j = j ∧ j + 1 ≤ j ∧ j < j + 1 + (a.cols - (j + 1))) := by omega
  rw [if_neg h1, if_pos ⟨rfl, rfl⟩,
    (cholLInner_iter_indep a (cholLState sq a j).1 j j
      (fun i => (cholLState sq a j).1.At j i) (F.fin 0) (cholLState sq a j).2 true).2]
  simp only [pivotL]

lemma cholRState_diag (sq : F → F) (a : Mat) (j : Nat) :
    (cholRState sq a (j + 1)).1.At j j = sq (F.max (pivotR sq a j) (F.fin 0)) := by
  rw [cholRState_succ, cholROuter_fst, At_fillCol, Mat.At_Set]
  have h1 : ¬(j = j ∧ j + 1 ≤ j ∧ j < j + 1 + (a.cols - (j + 1))) := by omega
  rw [if_neg h1, if_pos ⟨rfl, rfl⟩,
    (cholRInner_iter_indep a j j (cholRState sq a j).1 (F.fin 0) (cholRState sq a j).2 true).2]
  simp only [pivotR]

/-- Every diagonal entry of the final `L` is the square root of the clamped pivot. -/
lemma CholeskyL_diag (sq : F → F) (a : Mat) (j : Nat) (hj : j < a.cols) :
    (CholeskyL sq a).1.At j j = sq (F.max (pivotL sq a j) (F.fin 0)) := by
  rw [CholeskyL_eq_state, cholLState_At_stable sq a j j a.cols (by omega)]
  exact cholLState_diag sq a j

/-- Every diagonal entry of the final `R` is the square root of the clamped pivot. -/
lemma CholeskyR_diag (sq : F → F) (a : Mat) (j : Nat) (hj : j < a.cols) :
    (CholeskyR sq a).1.At j j = sq (F.max (pivotR sq a j) (F.fin 0)) := by
  rw [CholeskyR_eq_state, cholRState_At_stable sq a j j a.cols (by omega)]
  exact cholRState_diag sq a j

/-- The clamped value `Max(d, 0)` is never a negative number. -/
lemma F_max_zero_not_neg (x : F) : (F.max x (F.fin 0)).isNeg = false := by
  cases x with
  | fin q =>
      simp only [F.max, F.isNeg, decide_eq_false_iff_not, not_lt]
      exact le_max_right q 0
  | inf s =>
      cases s with
      | false => rfl
      | true => simp [F.max, F.isNeg]
  | nan => rfl

/-- C7: the factorizers are total (the embedding returns a value for every
square input — there is no error path), and each diagonal entry is produced
by applying the square root to `Max(d, 0)`, which is never a negative number:
the square root is never taken of a negative argument, so no diagonal NaN can
arise from a negative square-root argument. -/
theorem c7_sqrt_argument_never_negative (sq : F → F) (a : Mat) (j : Nat) (hj : j < a.cols) :
    ((CholeskyL sq a).1.At j j = sq (F.max (pivotL sq a j) (F.fin 0))
      ∧ (F.max (pivotL sq a j) (F.fin 0)).isNeg = false)
    ∧ ((CholeskyR sq a).1.At j j = sq (F.max (pivotR sq a j) (F.fin 0))
      ∧ (F.max (pivotR sq a j) (F.fin 0)).isNeg = false) :=
  ⟨⟨CholeskyL_diag sq a j hj, F_max_zero_not_neg _⟩,
   ⟨CholeskyR_diag sq a j hj, F_max_zero_not_neg _⟩⟩

/-- Witness for C7 at a concrete input and diagonal index. -/
theorem c7_witness :
    0 < (matOf [[4, 2], [2, 3]]).cols
    ∧ ((CholeskyL sqrtF (matOf [[4, 2], [2, 3]])).1.At 0 0
        = sqrtF (F.max (pivotL sqrtF (matOf [[4, 2], [2, 3]]) 0) (F.fin 0))
      ∧ (F.max (pivotL sqrtF (matOf [[4, 2], [2, 3]]) 0) (F.fin 0)).isNeg = false) :=
  ⟨by decide, (c7_sqrt_argument_never_negative sqrtF (matOf [[4, 2], [2, 3]]) 0 (by decide)).1⟩

/-! ## C10: `spd = true` forces strictly positive diagonals -/

lemma blt_zero_dest (x : F) (h : F.blt (F.fin 0) x = true) :
    (∃ q : ℚ, x = F.fin q ∧ 0 < q) ∨ x = F.inf false := by
  cases x with
  | fin q =>
      left
      exact ⟨q, rfl, by simpa [F.blt] using h⟩
  | inf s =>
      cases s with
      | false => right; rfl
      | true => simp [F.blt] at h
  | nan => simp [F.blt] at h

lemma max_zero_of_pos (x : F) (h : F.blt (F.fin 0) x = true) : F.max x (F.fin 0) = x := by
  rcases blt_zero_dest x h with ⟨q, rfl, hq⟩ | rfl
  · simp [F.max, max_eq_left (le_of_lt hq)]
  · rfl

lemma isPos_ne_zero (x : F) (h : F.isPos x = true) : x ≠ F.fin 0 := by
  intro he
  subst he
  simp [F.isPos] at h

/-- C10: whenever a factorizer reports `spd = true`, every diagonal entry of
the returned factor is strictly positive — in particular nonzero, so every
division `x.At(k, j) / l.At(k, k)` performed by a subsequent `CholeskySolve`
on that factor divides by a nonzero value.  The hypotheses on `sq` are
properties of IEEE `sqrt`: the square root of a strictly positive number
(or of `+∞`) is strictly positive. -/
theorem c10_spd_true_positive_diagonal (sq : F → F) (a : Mat)
    (hsq1 : ∀ q : ℚ, 0 < q → F.isPos (sq (F.fin q)) = true)
    (hsq2 : F.isPos (sq (F.inf false)) = true) :
    ((CholeskyL sq a).2 = true →
      ∀ k, k < a.cols →
        F.isPos ((CholeskyL sq a).1.At k k) = true ∧ (CholeskyL sq a).1.At k k ≠ F.fin 0)
    ∧ ((CholeskyR sq a).2 = true →
      ∀ k, k < a.cols →
        F.isPos ((CholeskyR sq a).1.At k k) = true ∧ (CholeskyR sq a).1.At k k ≠ F.fin 0) := by
  constructor
  · intro hspd k hk
    have hpiv := ((CholeskyL_spd_iff sq a).mp hspd).2.2 k hk
    have hdiag := CholeskyL_diag sq a k hk
    rw [max_zero_of_pos _ hpiv] at hdiag
    have hpos : F.isPos ((CholeskyL sq a).1.At k k) = true := by
      rw [hdiag]
      rcases blt_zero_dest _ hpiv with ⟨q, hq, hq0⟩ | hq
      · rw [hq]; exact hsq1 q hq0
      · rw [hq]; exact hsq2
    exact ⟨hpos, isPos_ne_zero _ hpos⟩
  · intro hspd k hk
    have hpiv := ((CholeskyR_spd_iff sq a).mp hspd).2.2 k hk
    have hdiag := CholeskyR_diag sq a k hk
    rw [max_zero_of_pos _ hpiv] at hdiag
    have hpos : F.isPos ((CholeskyR sq a).1.At k k) = true := by
      rw [hdiag]
      rcases blt_zero_dest _ hpiv with ⟨q, hq, hq0⟩ | hq
      · rw [hq]; exact hsq1 q hq0
      · rw [hq]; exact hsq2
    exact ⟨hpos, isPos_ne_zero _ hpos⟩

/-- `sqrtF` maps strictly positive finite values to strictly positive values
(as IEEE `sqrt` does). -/
lemma sqrtF_isPos (q : ℚ) (hq : 0 < q) : F.isPos (sqrtF (F.fin q)) = true := by
  have hnl : ¬q < 0 := not_lt.mpr (le_of_lt hq)
  simp only [sqrtF, if_neg hnl, F.isPos, decide_eq_true_eq, ratSqrt]
  apply div_pos
  · have h1 : 0 < q.num := Rat.num_pos.mpr hq
    have h2 : 0 < q.num.toNat := by omega
    exact_mod_cast Nat.sqrt_pos.mpr h2
  · have h3 : 0 < q.den := q.pos
    exact_mod_cast Nat.sqrt_pos.mpr h3

/-- Witness for C10 at the SPD input `[[4, 2], [2, 3]]` with `sq := sqrtF`. -/
theorem c10_witness :
    F.isPos ((CholeskyL sqrtF (matOf [[4, 2], [2, 3]])).1.At 1 1) = true
    ∧ (CholeskyL sqrtF (matOf [[4, 2], [2, 3]])).1.At 1 1 ≠ F.fin 0 := by
  have hspd : (CholeskyL sqrtF (matOf [[4, 2], [2, 3]])).2 = true := by
    simp [CholeskyL, cholLOuter, cholLInner, iterUp, iterUpFrom, dotTo, matOf,
      Mat.Set, Mat.SetRow, updF, F.add, F.sub, F.mul, F.div, F.neg, F.max, F.blt,
      F.beq, sqrtF, ratSqrt]
    norm_num [ratSqrt]
  exact (c10_spd_true_positive_diagonal sqrtF (matOf [[4, 2], [2, 3]])
    sqrtF_isPos rfl).1 hspd 1 (by decide)

/-! ## C9: mutation footprint

The Go routines act on `*mat64.Dense` pointers.  To state *which* argument is
mutated we re-express the same source code over an explicit store (`Heap`):
a map from references to matrices.  Every write the source performs through a
pointer (`l.SetRow`, `l.Set`, `x.Set` with `x = b`) becomes a store update at
that pointer's reference; reads go through the store.  `CholeskyL`/`CholeskyR`
allocate their factor at a fresh reference (`mat64.NewDense`), modelled by the
parameter `lr`/`rr` (distinct from the input's reference in the claims, as a
fresh allocation is). -/

def Heap : Type := Nat → Mat

def hSet (h : Heap) (r i j : Nat) (v : F) : Heap :=
  fun ρ => if ρ = r then (h ρ).Set i j v else h ρ

def hSetRow (h : Heap) (r i : Nat) (row : Nat → F) : Heap :=
  fun ρ => if ρ = r then (h ρ).SetRow i row else h ρ

lemma hSet_ne (h : Heap) (r i j : Nat) (v : F) (ρ : Nat) (hρ : ρ ≠ r) :
    hSet h r i j v ρ = h ρ := by simp [hSet, hρ]

lemma hSetRow_ne (h : Heap) (r i : Nat) (row : Nat → F) (ρ : Nat) (hρ : ρ ≠ r) :
    hSetRow h r i row ρ = h ρ := by simp [hSetRow, hρ]

lemma iterDown_succ (f : Nat → α → α) (k : Nat) (s : α) :
    iterDown f (k + 1) s = iterDown f k (f k s) := rfl

lemma iterUp_heap_frame {f : Nat → Heap → Heap} {r : Nat}
    (hf : ∀ k h' ρ, ρ ≠ r → f k h' ρ = h' ρ) (n : Nat) (h0 : Heap) (ρ : Nat) (hρ : ρ ≠ r) :
    iterUp f n h0 ρ = h0 ρ := by
  induction n with
  | zero => rfl
  | succ k ih => rw [iterUp_succ, hf k _ ρ hρ, ih]

lemma iterDown_heap_frame {f : Nat → Heap → Heap} {r : Nat}
    (hf : ∀ k h' ρ, ρ ≠ r → f k h' ρ = h' ρ) (n : Nat) (h0 : Heap) (ρ : Nat) (hρ : ρ ≠ r) :
    iterDown f n h0 ρ = h0 ρ := by
  induction n generalizing h0 with
  | zero => rfl
  | succ k ih => rw [iterDown_succ]; exact (ih _).trans (hf k h0 ρ hρ)

/-- Outer `CholeskyL` iteration over the store: the factor lives at `lr`, the
input at `ar`; all writes go through `lr`. -/
def cholLOuterH (sq : F → F) (ar lr : Nat) (n j : Nat) (st : Heap × Bool) : Heap × Bool :=
  let h := st.1
  let a := h ar
  let l := h lr
  let inner := iterUp (cholLInner a l j) j ((fun i => l.At j i), F.fin 0, st.2)
  let h1 := hSetRow h lr j inner.1
  let d := F.sub (a.At j j) inner.2.1
  let spd2 := inner.2.2 && F.blt (F.fin 0) d
  let h2 := hSet h1 lr j j (sq (F.max d (F.fin 0)))
  let h3 := iterUpFrom (fun k h' => hSet h' lr j k (F.fin 0)) (j + 1) (n - (j + 1)) h2
  (h3, spd2)

/-- `CholeskyL` over the store: returns the store, the reference of the
returned factor, and the `spd` flag. -/
def CholeskyLH (sq : F → F) (h : Heap) (ar lr : Nat) : Heap × Nat × Bool :=
  let a := h ar
  let n := a.cols
  let h0 : Heap := fun ρ => if ρ = lr then (⟨n, n, fun _ _ => F.fin 0⟩ : Mat) else h ρ
  let res := iterUp (cholLOuterH sq ar lr n) n (h0, a.rows == a.cols)
  (res.1, lr, res.2)

/-- Inner `CholeskyR` iteration over the store (the inner loop both reads and
writes the factor at `rr`). -/
def cholRInnerH (ar rr : Nat) (j k : Nat) (st : Heap × F × Bool) : Heap × F × Bool :=
  let h := st.1
  let a := h ar
  let r := h rr
  let s1 := iterUp (fun i s => F.sub s (F.mul (r.At i k) (r.At i j))) k (a.At k j)
  let s := F.div s1 (r.At k k)
  (hSet h rr k j s, F.add st.2.1 (F.mul s s), st.2.2 && F.beq (a.At k j) (a.At j k))

def cholROuterH (sq : F → F) (ar rr : Nat) (n j : Nat) (st : Heap × Bool) : Heap × Bool :=
  let inner := iterUp (cholRInnerH ar rr j) j (st.1, F.fin 0, st.2)
  let h1 := inner.1
  let d := F.sub ((h1 ar).At j j) inner.2.1
  let spd2 := inner.2.2 && F.blt (F.fin 0) d
  let h2 := hSet h1 rr j j (sq (F.max d (F.fin 0)))
  let h3 := iterUpFrom (fun k h' => hSet h' rr k j (F.fin 0)) (j + 1) (n - (j + 1)) h2
  (h3, spd2)

def CholeskyRH (sq : F → F) (h : Heap) (ar rr : Nat) : Heap × Nat × Bool :=
  let a := h ar
  let n := a.cols
  let h0 : Heap := fun ρ => if ρ = rr then (⟨n, n, fun _ _ => F.fin 0⟩ : Mat) else h ρ
  let res := iterUp (cholROuterH sq ar rr n) n (h0, a.rows == a.cols)
  (res.1, rr, res.2)

/-- `CholeskySolve` over the store: the factor is read through `lr`, and every
write of `x.Set` (with `x = b`) goes through `br`; the returned reference is
`br` itself (`x := b; …; return x`). -/
def CholeskySolveH (h : Heap) (lr br : Nat) : Except MatErr (Heap × Nat) :=
  let m := (h lr).rows
  let n := (h lr).cols
  if n ≠ m then .error .ErrSquare
  else
    let bn := (h br).cols
    if n ≠ bn then .error .ErrShape
    else
      let nx := bn
      let h1 := iterUp (fun k h' =>
        iterUp (fun j h' =>
          let h2 := iterUp (fun i h' =>
            hSet h' br k j (F.sub ((h' br).At k j) (F.mul ((h' br).At i j) ((h' lr).At k i)))) k h'
          hSet h2 br k j (F.div ((h2 br).At k j) ((h2 lr).At k k))) nx h') n h
      let h3 := iterDown (fun k h' =>
        iterUp (fun j h' =>
          let h2 := iterUpFrom (fun i h' =>
            hSet h' br k j (F.sub ((h' br).At k j) (F.mul ((h' br).At i j) ((h' lr).At i k)))) (k + 1) (n - (k + 1)) h'
          hSet h2 br k j (F.div ((h2 br).At k j) ((h2 lr).At k k))) nx h') n h1
      .ok (h3, br)

lemma cholLOuterH_frame (sq : F → F) (ar lr n j : Nat) (st : Heap × Bool)
    (ρ : Nat) (hρ : ρ ≠ lr) : (cholLOuterH sq ar lr n j st).1 ρ = st.1 ρ := by
  simp only [cholLOuterH, iterUpFrom]
  rw [iterUp_heap_frame (fun k h' ρ' hρ' => hSet_ne h' lr j (j + 1 + k) (F.fin 0) ρ' hρ') _ _ ρ hρ,
    hSet_ne _ _ _ _ _ _ hρ, hSetRow_ne _ _ _ _ _ hρ]

lemma cholRInnerH_iter_frame (ar rr j k : Nat) (st : Heap × F × Bool)
    (ρ : Nat) (hρ : ρ ≠ rr) : (iterUp (cholRInnerH ar rr j) k st).1 ρ = st.1 ρ := by
  induction k with
  | zero => rfl
  | succ k ih =>
      rw [iterUp_succ]
      exact (hSet_ne _ _ _ _ _ _ hρ).trans ih

lemma cholROuterH_frame (sq : F → F) (ar rr n j : Nat) (st : Heap × Bool)
    (ρ : Nat) (hρ : ρ ≠ rr) : (cholROuterH sq ar rr n j st).1 ρ = st.1 ρ := by
  simp only [cholROuterH, iterUpFrom]
  rw [iterUp_heap_frame (fun k h' ρ' hρ' => hSet_ne h' rr (j + 1 + k) j (F.fin 0) ρ' hρ') _ _ ρ hρ,
    hSet_ne _ _ _ _ _ _ hρ]
  exact cholRInnerH_iter_frame ar rr j j _ ρ hρ

lemma CholeskyLH_frame (sq : F → F) (h : Heap) (ar lr : Nat) (ρ : Nat) (hρ : ρ ≠ lr) :
    (CholeskyLH sq h ar lr).1 ρ = h ρ := by
  simp only [CholeskyLH]
  have hiter : ∀ (n' : Nat) (st : Heap × Bool),
      (iterUp (cholLOuterH sq ar lr (h ar).cols) n' st).1 ρ = st.1 ρ := by
    intro n'
    induction n' with
    | zero => intro st; rfl
    | succ k ih =>
        intro st
        rw [iterUp_succ, cholLOuterH_frame sq ar lr _ k _ ρ hρ]
        exact ih st
  rw [hiter]
  simp [hρ]

lemma CholeskyRH_frame (sq : F → F) (h : Heap) (ar rr : Nat) (ρ : Nat) (hρ : ρ ≠ rr) :
    (CholeskyRH sq h ar rr).1 ρ = h ρ := by
  simp only [CholeskyRH]
  have hiter : ∀ (n' : Nat) (st : Heap × Bool),
      (iterUp (cholROuterH sq ar rr (h ar).cols) n' st).1 ρ = st.1 ρ := by
    intro n'
    induction n' with
    | zero => intro st; rfl
    | succ k ih =>
        intro st
        rw [iterUp_succ, cholROuterH_frame sq ar rr _ k _ ρ hρ]
        exact ih st
  rw [hiter]
  simp [hρ]

lemma CholeskySolveH_frame (h : Heap) (lr br : Nat) (res : Heap × Nat)
    (hok : CholeskySolveH h lr br = .ok res) :
    res.2 = br ∧ ∀ ρ, ρ ≠ br → res.1 ρ = h ρ := by
  simp only [CholeskySolveH] at hok
  by_cases h1 : (h lr).cols ≠ (h lr).rows
  · rw [if_pos h1] at hok
    exact absurd hok (by simp)
  · rw [if_neg h1] at hok
    by_cases h2 : (h lr).cols ≠ (h br).cols
    · rw [if_pos h2] at hok
      exact absurd hok (by simp)
    · rw [if_neg h2] at hok
      have hres := (Except.ok.inj hok).symm
      subst hres
      refine ⟨rfl, fun ρ hρ => ?_⟩
      refine Eq.trans (iterDown_heap_frame ?_ _ _ ρ hρ) (iterUp_heap_frame ?_ _ _ ρ hρ)
      · intro k h' ρ' hρ'
        refine iterUp_heap_frame ?_ _ _ ρ' hρ'
        intro j h'' ρ'' hρ''
        refine (hSet_ne _ _ _ _ _ _ hρ'').trans ?_
        simp only [iterUpFrom]
        exact iterUp_heap_frame (fun i h3 ρ3 hρ3 => hSet_ne _ _ _ _ _ _ hρ3) _ _ ρ'' hρ''
      · intro k h' ρ' hρ'
        refine iterUp_heap_frame ?_ _ _ ρ' hρ'
        intro j h'' ρ'' hρ''
        refine (hSet_ne _ _ _ _ _ _ hρ'').trans ?_
        exact iterUp_heap_frame (fun i h3 ρ3 hρ3 => hSet_ne _ _ _ _ _ _ hρ3) _ _ ρ'' hρ''

/-- C9: across the three operations the only reference ever written is the
solver's right-hand side: `CholeskyL`/`CholeskyR` write only through the
freshly allocated factor reference (so the input matrix at `ar ≠ lr` is
untouched), and `CholeskySolve` writes only through `B`'s reference, leaves
the factor (at a non-aliased reference) unchanged, and returns `B`'s own
reference as the result. -/
theorem c9_only_B_mutated :
    (∀ (sq : F → F) (h : Heap) (ar lr : Nat), ar ≠ lr →
        (CholeskyLH sq h ar lr).1 ar = h ar ∧ (CholeskyLH sq h ar lr).2.1 = lr)
    ∧ (∀ (sq : F → F) (h : Heap) (ar rr : Nat), ar ≠ rr →
        (CholeskyRH sq h ar rr).1 ar = h ar)
    ∧ (∀ (h : Heap) (lr br : Nat) (res : Heap × Nat), lr ≠ br →
        CholeskySolveH h lr br = .ok res →
          res.2 = br ∧ res.1 lr = h lr ∧ ∀ ρ, ρ ≠ br → res.1 ρ = h ρ) := by
  refine ⟨fun sq h ar lr hne => ⟨CholeskyLH_frame sq h ar lr ar hne, rfl⟩,
          fun sq h ar rr hne => CholeskyRH_frame sq h ar rr ar hne,
          fun h lr br res hne hok => ?_⟩
  obtain ⟨h1, h2⟩ := CholeskySolveH_frame h lr br res hok
  exact ⟨h1, h2 lr hne, h2⟩

/-- Witness for C9: a concrete two-matrix store. -/
theorem c9_witness :
    (0 : Nat) ≠ 1
    ∧ (CholeskyLH sqrtF (fun ρ => if ρ = 0 then matOf [[4, 2], [2, 3]] else matOf [[1], [2]]) 0 1).1 0
        = (fun ρ : Nat => if ρ = 0 then matOf [[4, 2], [2, 3]] else matOf [[1], [2]]) 0 :=
  ⟨by decide,
    (c9_only_B_mutated.1 sqrtF
      (fun ρ => if ρ = 0 then matOf [[4, 2], [2, 3]] else matOf [[1], [2]]) 0 1 (by decide)).1⟩


/-! ## C5: `CholeskyL` and `CholeskyR` produce mutual transposes

Exact-arithmetic bridge: `CholeskyL` accumulates the dot product in `s` and
subtracts it from `a.At(j, k)` once, while `CholeskyR` starts from
`a.At(k, j)` and subtracts the products one by one.  Over the embedded
arithmetic (including the IEEE special values) the two orders agree, which is
the content of `F_sub_sub`/`subFold_eq`. -/
lemma F_sub_sub (a b c : F) : F.sub (F.sub a b) c = F.sub a (F.add b c) := by
  cases a <;> cases b <;> cases c <;>
    simp only [F.sub, F.add, F.neg] <;>
    (try split_ifs) <;>
    simp_all [F.add, F.neg] <;>
    try ring

lemma F_sub_zero (x : F) : F.sub x (F.fin 0) = x := by
  cases x <;> simp [F.sub, F.add, F.neg]

lemma subFold_eq (aval : F) (t : Nat → F) (k : Nat) :
    iterUp (fun i s => F.sub s (t i)) k aval
      = F.sub aval (iterUp (fun i s => F.add s (t i)) k (F.fin 0)) := by
  induction k with
  | zero => rw [iterUp_zero, iterUp_zero, F_sub_zero]
  | succ k ih => rw [iterUp_succ, iterUp_succ, ih, F_sub_sub]

lemma iterUp_congr (f g : Nat → α → α) (k : Nat) (s : α)
    (h : ∀ i, i < k → ∀ x, f i x = g i x) : iterUp f k s = iterUp g k s := by
  induction k with
  | zero => rfl
  | succ k ih =>
      rw [iterUp_succ, iterUp_succ, ih (fun i hi x => h i (by omega) x), h k (by omega)]

lemma LR_inner_inv (sq : F → F) (a : Mat) (j : Nat)
    (lmat rmat : Mat) (bL bR : Bool)
    (hT : ∀ p q, lmat.At p q = rmat.At q p)
    (hjn : j < a.cols)
    (hsym : ∀ p q, p < a.cols → q < a.cols → a.At p q = a.At q p) :
    ∀ k, k ≤ j →
      (∀ i, i < k →
        (iterUp (cholLInner a lmat j) k ((fun i => lmat.At j i), F.fin 0, bL)).1 i
          = (iterUp (cholRInner a j) k (rmat, F.fin 0, bR)).1.At i j)
      ∧ (iterUp (cholLInner a lmat j) k ((fun i => lmat.At j i), F.fin 0, bL)).2.1
          = (iterUp (cholRInner a j) k (rmat, F.fin 0, bR)).2.1 := by
  intro k
  induction k with
  | zero => exact fun _ => ⟨fun i hi => absurd hi (Nat.not_lt_zero i), rfl⟩
  | succ k ih =>
      intro hk1
      have hkj : k < j := hk1
      obtain ⟨ih1, ih2⟩ := ih (by omega)
      have hRik : ∀ i, i < k →
          (iterUp (cholRInner a j) k (rmat, F.fin 0, bR)).1.At i k = lmat.At k i := by
        intro i hi
        rw [cholRInner_iter_At_colne a j k (rmat, F.fin 0, bR) i k (by omega)]
        exact (hT k i).symm
      have hRkk : (iterUp (cholRInner a j) k (rmat, F.fin 0, bR)).1.At k k = lmat.At k k := by
        rw [cholRInner_iter_At_colne a j k (rmat, F.fin 0, bR) k k (by omega)]
        exact (hT k k).symm
      have hs : F.div (iterUp (fun i s => F.sub s
            (F.mul ((iterUp (cholRInner a j) k (rmat, F.fin 0, bR)).1.At i k)
                   ((iterUp (cholRInner a j) k (rmat, F.fin 0, bR)).1.At i j))) k (a.At k j))
            ((iterUp (cholRInner a j) k (rmat, F.fin 0, bR)).1.At k k)
          = F.div (F.sub (a.At j k)
              (dotTo (fun i => lmat.At k i)
                (iterUp (cholLInner a lmat j) k ((fun i => lmat.At j i), F.fin 0, bL)).1 k))
              (lmat.At k k) := by
        rw [iterUp_congr
             (fun i s => F.sub s
               (F.mul ((iterUp (cholRInner a j) k (rmat, F.fin 0, bR)).1.At i k)
                      ((iterUp (cholRInner a j) k (rmat, F.fin 0, bR)).1.At i j)))
             (fun i s => F.sub s
               (F.mul (lmat.At k i)
                      ((iterUp (cholLInner a lmat j) k ((fun i => lmat.At j i), F.fin 0, bL)).1 i)))
             k (a.At k j)
             (fun i hi x => by dsimp only; rw [hRik i hi, ih1 i hi]),
           subFold_eq, hRkk, hsym k j (by omega) hjn]
        rfl
      constructor
      · intro i hi1
        rw [iterUp_succ, iterUp_succ, cholLInner_fst, cholRInner_fst, Mat.At_Set, updF]
        by_cases hik : i = k
        · subst hik
          rw [if_pos rfl, if_pos ⟨rfl, rfl⟩]
          exact hs.symm
        · rw [if_neg hik, if_neg (fun h => hik h.1)]
          exact ih1 i (by omega)
      · rw [iterUp_succ, iterUp_succ, cholLInner_snd1, cholRInner_snd1, ih2, hs]

lemma LR_transpose_inv (sq : F → F) (a : Mat)
    (hsym : ∀ p q, p < a.cols → q < a.cols → a.At p q = a.At q p) :
    ∀ j, j ≤ a.cols →
      (∀ p q, (cholLState sq a j).1.At p q = (cholRState sq a j).1.At q p)
      ∧ (cholLState sq a j).2 = (cholRState sq a j).2 := by
  intro j
  induction j with
  | zero => exact fun _ => ⟨fun p q => rfl, rfl⟩
  | succ j ih =>
      intro hj1
      have hjn : j < a.cols := by omega
      obtain ⟨ihT, ihS⟩ := ih (by omega)
      obtain ⟨hq1, hq4⟩ := LR_inner_inv sq a j (cholLState sq a j).1 (cholRState sq a j).1
        (cholLState sq a j).2 (cholRState sq a j).2 ihT hjn hsym j (le_refl j)
      constructor
      · intro p q
        by_cases hpj : p = j
        · rw [hpj]
          rcases Nat.lt_trichotomy q j with hq | hq | hq
          · have e1 : ¬(j = j ∧ j + 1 ≤ q ∧ q < j + 1 + (a.cols - (j + 1))) := by omega
            have e2 : ¬(j = j ∧ q = j) := by omega
            have e2' : ¬(q = j ∧ j = j) := by omega
            have e3 : j = j ∧ q < (cholLState sq a j).1.cols :=
              ⟨rfl, by rw [cholLState_cols]; omega⟩
            rw [cholLState_succ, cholRState_succ, cholLOuter_fst, cholROuter_fst,
              At_fillRow, Mat.At_Set, Mat.At_SetRow, if_neg e1, if_neg e2, if_pos e3,
              At_fillCol, Mat.At_Set, if_neg e1, if_neg e2']
            exact hq1 q hq
          · rw [hq]
            have e1 : ¬(j = j ∧ j + 1 ≤ j ∧ j < j + 1 + (a.cols - (j + 1))) := by omega
            rw [cholLState_succ, cholRState_succ, cholLOuter_fst, cholROuter_fst,
              At_fillRow, Mat.At_Set, if_neg e1, if_pos ⟨rfl, rfl⟩,
              At_fillCol, Mat.At_Set, if_neg e1, if_pos ⟨rfl, rfl⟩, hq4]
          · have e2 : ¬(j = j ∧ q = j) := by omega
            have e2' : ¬(q = j ∧ j = j) := by omega
            by_cases hqn : q < a.cols
            · have e1 : j = j ∧ j + 1 ≤ q ∧ q < j + 1 + (a.cols - (j + 1)) :=
                ⟨rfl, by omega, by omega⟩
              rw [cholLState_succ, cholRState_succ, cholLOuter_fst, cholROuter_fst,
                At_fillRow, if_pos e1, At_fillCol, if_pos e1]
            · have e1 : ¬(j = j ∧ j + 1 ≤ q ∧ q < j + 1 + (a.cols - (j + 1))) := by omega
              have e3 : ¬(j = j ∧ q < (cholLState sq a j).1.cols) := by
                rw [cholLState_cols]
                omega
              rw [cholLState_succ, cholRState_succ, cholLOuter_fst, cholROuter_fst,
                At_fillRow, Mat.At_Set, Mat.At_SetRow, if_neg e1, if_neg e2, if_neg e3,
                At_fillCol, Mat.At_Set, if_neg e1, if_neg e2',
                cholRInner_iter_At_high a j j ((cholRState sq a j).1, F.fin 0, (cholRState sq a j).2) q j (by omega)]
              exact ihT j q
        · rw [cholLState_succ, cholRState_succ,
            cholLOuter_At_rowne sq a a.cols j _ p q hpj,
            cholROuter_At_colne sq a a.cols j _ q p hpj]
          exact ihT p q
      · rw [cholLState_succ, cholRState_succ, cholLOuter_snd, cholROuter_snd,
          cholLInner_iter_spd, cholRInner_iter_spd, hq4, ihS]

/-- C5: for the same symmetric (in particular any symmetric positive-definite)
square input `A` and the same square-root routine, the factors returned by
`CholeskyL` and `CholeskyR` are mutual transposes — `L[j,k] = R[k,j]` exactly,
over the embedded arithmetic, for all indices, hence with equal diagonals —
and both calls return the same `spd` flag. -/
theorem c5_mutual_transposes (sq : F → F) (a : Mat)
    (hsquare : a.rows = a.cols)
    (hsym : ∀ p q, p < a.cols → q < a.cols → a.At p q = a.At q p) :
    (∀ p q, (CholeskyL sq a).1.At p q = (CholeskyR sq a).1.At q p)
    ∧ (CholeskyL sq a).2 = (CholeskyR sq a).2 := by
  rw [CholeskyL_eq_state, CholeskyR_eq_state]
  exact LR_transpose_inv sq a hsym a.cols (le_refl _)

/-- Witness for C5 at the SPD input `[[4, 2], [2, 3]]`. -/
theorem c5_witness :
    ((matOf [[4, 2], [2, 3]]).rows = (matOf [[4, 2], [2, 3]]).cols)
    ∧ (CholeskyL sqrtF (matOf [[4, 2], [2, 3]])).1.At 1 0
        = (CholeskyR sqrtF (matOf [[4, 2], [2, 3]])).1.At 0 1
    ∧ (CholeskyL sqrtF (matOf [[4, 2], [2, 3]])).2
        = (CholeskyR sqrtF (matOf [[4, 2], [2, 3]])).2 := by
  have hsym : ∀ p q, p < (matOf [[4, 2], [2, 3]]).cols → q < (matOf [[4, 2], [2, 3]]).cols →
      (matOf [[4, 2], [2, 3]]).At p q = (matOf [[4, 2], [2, 3]]).At q p := by
    intro p q hp hq
    have hp2 : p < 2 := hp
    have hq2 : q < 2 := hq
    interval_cases p <;> interval_cases q <;> rfl
  exact ⟨rfl, (c5_mutual_transposes sqrtF _ rfl hsym).1 1 0,
    (c5_mutual_transposes sqrtF _ rfl hsym).2⟩
